import Mathlib

/-!
# Verification of the stability-gap metrics engine

Shallow embedding, over `ℚ`, of the metric computations of
`StabilityGap/stability_gap_example.py`: the smoothing filter applied to
post-switch windows, the trough/recovery analyzer, the sliding-extremum
scanner (WF/WP over trailing windows of 10 and 100 samples), the
performance-log accumulation, and the cross-trial mean / standard-error
aggregation.

Floating-point NaN is modelled by `Option ℚ` (`none` = NaN); every division
in the source that can produce a NaN there has a zero numerator whenever its
denominator is zero (`0.0/0 = nan`), so an `Option`-valued guarded division
is a faithful model (no infinities arise).
-/

set_option maxRecDepth 4000

/-- `np.mean` over a list of rationals (`sum / length`; the degenerate empty
case never occurs at the call sites embedded here). -/
def np_mean (l : List ℚ) : ℚ := l.sum / l.length

/-- Division producing NaN (`none`) on a zero denominator.  At every embedded
call site the numerator is `0` whenever the denominator is `0`, matching the
float behaviour `0.0/0.0 = nan`. -/
def qdiv (a b : ℚ) : Option ℚ := if b = 0 then none else some (a / b)

/-- Maximum of a non-empty list (Python's built-in `max`); `0` on `[]`,
which never occurs at the embedded call sites. -/
def listMax : List ℚ → ℚ
  | [] => 0
  | x :: xs => xs.foldl max x

/-- Running maximum seeded with a default: `foldl max d`. -/
def maxD (d : ℚ) (l : List ℚ) : ℚ := l.foldl max d

/-- The last `W` elements of a list (all of it when shorter). -/
def lastN (W : ℕ) (l : List ℚ) : List ℚ := l.drop (l.length - W)

/-! ## Smoothing filter

`scipy.ndimage.uniform_filter1d(window, size=5)` (source line 367): each
output element is the mean of the 5 input samples centered there, the input
being extended at both edges by scipy's default boundary mode `reflect`
(half-sample symmetric: `(d c b a | a b c d | d c b a)`). -/

/-- Index resolution for scipy's `reflect` boundary mode with a radius-2
neighborhood: virtual positions `-2, -1` map to `1, 0` and `n, n+1` map to
`n-1, n-2`; the final `min` only matters for `n = 1`, where every position
maps to `0`. -/
def reflectIdx (n : ℕ) (i : ℤ) : ℕ :=
  min (if i < 0 then -i - 1 else if (n : ℤ) ≤ i then 2 * (n : ℤ) - 1 - i else i).toNat (n - 1)

/-- `uniform_filter1d(xs, size=5)` with the default `reflect` boundary mode. -/
def uniform_filter1d (xs : List ℚ) : List ℚ :=
  (List.range xs.length).map (fun (i : ℕ) =>
    ((List.range 5).map
      (fun (k : ℕ) => xs.getD (reflectIdx xs.length ((i : ℤ) + (k : ℤ) - 2)) 0)).sum / 5)

/-- The smoothing the specification words describe instead: a truncated
boundary policy, averaging only the real samples in the radius-2
neighborhood clipped to the sequence. -/
def smoothed_window_truncated (xs : List ℚ) : List ℚ :=
  (List.range xs.length).map (fun i =>
    let seg := (xs.take (i + 3)).drop (i - 2)
    seg.sum / seg.length)

/-! ## Trough and recovery (source lines 369-418) -/

/-- `np.argmin`: first index attaining the minimum of the list. -/
def np_argmin : List ℚ → ℕ
  | [] => 0
  | [_] => 0
  | x :: y :: ys =>
    if x ≤ (y :: ys).getD (np_argmin (y :: ys)) 0 then 0 else np_argmin (y :: ys) + 1

/-- The index of the trough of a window: `np.argmin(smoothed_window)`
(source line 369). -/
def min_window_index (w : List ℚ) : ℕ := np_argmin (uniform_filter1d w)

/-- Position of the first element `≥ b` in a list, scanning left to right. -/
def firstGE (b : ℚ) : List ℚ → Option ℕ
  | [] => none
  | v :: vs => if b ≤ v then some 0 else (firstGE b vs).map (· + 1)

/-- The recovery scan (source lines 377-384): first index `i` in
`range(min_window_index, iters)` with `smoothed_window[i] >= smoothed_baseline`,
defaulting to `iters - 1` when the scan exhausts. -/
def recovery_window_index (w : List ℚ) (b : ℚ) : ℕ :=
  match firstGE b ((uniform_filter1d w).drop (np_argmin (uniform_filter1d w))) with
  | some k => np_argmin (uniform_filter1d w) + k
  | none => w.length - 1

/-- The value appended to `tbp_task` (source line 381): the raw cursor `i` of
the recovery scan after it finishes, which is the recovery index when found
and `iters - 1` when the scan exhausts — in both cases the post-default
recovery index, not a trough-to-recovery distance. -/
def tbp_append_val (w : List ℚ) (b : ℚ) : ℕ := recovery_window_index w b

/-- `window_baseline_index = -1` (source line 374). -/
def window_baseline_index : ℤ := -1

/-- `distance_to_minimum_in_window = min_window_index - window_baseline_index`
(source line 386). -/
def distance_to_minimum_in_window (w : List ℚ) : ℤ :=
  (min_window_index w : ℤ) - window_baseline_index

/-- `slope_down` (source lines 388-391); the `min_window_index >= 0` guard of
the source is always true (an argmin is non-negative), so the `np.nan` branch
is dead. -/
def slope_down_val (w : List ℚ) (b : ℚ) : ℚ :=
  let s := uniform_filter1d w
  (s.getD (min_window_index w) 0 - b) / ((distance_to_minimum_in_window w : ℚ))

/-- `slope_up` (source lines 394-398): by this point `recovery_window_index`
has been defaulted, so the `None` test is always false and the division is
taken unconditionally; it is NaN exactly when the denominator is zero. -/
def slope_up_val (w : List ℚ) (b : ℚ) : Option ℚ :=
  let s := uniform_filter1d w
  let m := min_window_index w
  let r := recovery_window_index w b
  qdiv (s.getD r 0 - s.getD m 0) ((r : ℚ) - (m : ℚ))

/-- `gap_depth` (source line 400): baseline minus the unsmoothed window value
at the smoothed argmin. -/
def gap_depth_val (w : List ℚ) (b : ℚ) : ℚ := b - w.getD (min_window_index w) 0

/-- `new_recovery_index = min(2 * distance_to_minimum_in_window, len(window) - 1)`
(source line 402). -/
def new_recovery_index (w : List ℚ) : ℤ :=
  min (2 * distance_to_minimum_in_window w) ((w.length : ℤ) - 1)

/-- `sr_fixed` (source lines 413-416). -/
def sr_fixed_val (w : List ℚ) (b : ℚ) : Option ℚ :=
  let s := uniform_filter1d w
  let m := min_window_index w
  let r := recovery_window_index w b
  if new_recovery_index w ≤ (r : ℤ) then
    qdiv (s.getD (new_recovery_index w).toNat 0 - s.getD m 0)
      ((distance_to_minimum_in_window w : ℚ))
  else
    qdiv (s.getD r 0 - s.getD m 0) ((r : ℚ) - (m : ℚ))

/-- The formula §4.2 of the specification gives for `slope_recovery_fixed`,
stated with `distance_to_trough = trough_index + 1` over natural-number
indices; to be compared with `sr_fixed_val`. -/
def slope_recovery_fixed_spec (s : List ℚ) (m r n : ℕ) : Option ℚ :=
  let fri := min (2 * (m + 1)) (n - 1)
  if fri ≤ r then qdiv (s.getD fri 0 - s.getD m 0) ((m : ℚ) + 1)
  else qdiv (s.getD r 0 - s.getD m 0) ((r : ℚ) - (m : ℚ))

/-- The window of task `t` for later switch `j`:
`performances_task[iters*(j+1) : iters*(j+2)]` (source lines 361-366). -/
def window_of (row : List ℚ) (iters j : ℕ) : List ℚ :=
  (row.take (iters * (j + 2))).drop (iters * (j + 1))

/-- `smoothed_baseline = np.mean(performances_task[baseline_index-4 : baseline_index+1])`
with `baseline_index = iters*(j+1) - 1` (source lines 359, 372). -/
def smoothed_baseline_of (row : List ℚ) (iters j : ℕ) : ℚ :=
  np_mean ((row.take (iters * (j + 1))).drop (iters * (j + 1) - 5))

/-! ## Performance-log accumulation (source lines 162-184, 257-284)

While 1-indexed task `k` is training, each of the `iters` iterations appends
one accuracy sample to `performances[index]` for every `index in range(k)`
(the parameter named `task_id` inside `train_and_evaluate` is bound to
`current_task = task_id + 1` at the call site, source line 284).  The
accuracy values themselves come from model evaluation, which is opaque here:
they are abstracted as a function `acc` of the 0-based phase, the iteration
and the row index. -/

/-- One evaluation sweep inside an iteration: append a sample to every row
with index below the 1-indexed current task `k` (source lines 180-184). -/
def appendSamples (k : ℕ) (a : ℕ → ℚ) (rows : List (List ℚ)) : List (List ℚ) :=
  rows.mapIdx (fun idx row => if idx < k then row ++ [a idx] else row)

/-- Training of one task: `iters` iterations, each appending one sample per
eligible row (source lines 162-184). -/
def trainPhase (k iters : ℕ) (a : ℕ → ℕ → ℚ) (rows : List (List ℚ)) : List (List ℚ) :=
  (List.range iters).foldl (fun rs it => appendSamples k (a it) rs) rows

/-- The per-trial performance log: rows start empty, then the 0-based tasks
`t = 0 .. n_tasks-1` train in order, task `t` training with 1-indexed
`current_task = t + 1` (source lines 257-284). -/
def performanceLog (n_tasks iters : ℕ) (acc : ℕ → ℕ → ℕ → ℚ) : List (List ℚ) :=
  (List.range n_tasks).foldl (fun rs t => trainPhase (t + 1) iters (acc t) rs)
    (List.replicate n_tasks [])

/-! ## Sliding-extremum scanner (source lines 455-476) -/

/-- `-sys.maxsize - 1`: the initial value of the four running maxima
(source lines 456-459). -/
def WF_INIT : ℚ := -(2 ^ 63)

/-- State of the scan of source lines 455-474: the four running maxima and
the two trailing comparison arrays. -/
structure ScanState where
  wf_max_10 : ℚ
  wf_max_100 : ℚ
  wp_max_10 : ℚ
  wp_max_100 : ℚ
  arr10 : List ℚ
  arr100 : List ℚ

/-- `if len(array) == W+1: array = array[1:]` (source lines 471-474). -/
def evictTo (W : ℕ) (l : List ℚ) : List ℚ := if l.length = W + 1 then l.tail else l

/-- One loop body of the scan (source lines 463-474): update the four running
maxima against the current trailing arrays, then append the current sample
and evict down to the window size. -/
def scanStep (s : ScanState) (c : ℚ) : ScanState :=
  { wf_max_10 := max s.wf_max_10 (listMax (s.arr10.map (fun x => x - c)))
    wf_max_100 := max s.wf_max_100 (listMax (s.arr100.map (fun x => x - c)))
    wp_max_10 := max s.wp_max_10 (listMax (s.arr10.map (fun x => c - x)))
    wp_max_100 := max s.wp_max_100 (listMax (s.arr100.map (fun x => c - x)))
    arr10 := evictTo 10 (s.arr10 ++ [c])
    arr100 := evictTo 100 (s.arr100 ++ [c]) }

/-- Initial scan state: maxima at `-sys.maxsize - 1`, both arrays seeded with
the anchor sample (source lines 456-461). -/
def initScanState (x0 : ℚ) : ScanState :=
  { wf_max_10 := WF_INIT, wf_max_100 := WF_INIT
    wp_max_10 := WF_INIT, wp_max_100 := WF_INIT
    arr10 := [x0], arr100 := [x0] }

/-- The whole scan, seeded with `row[500]` and folding over `row[501:]`
(source lines 460-474). -/
def runScan (x0 : ℚ) (rest : List ℚ) : ScanState :=
  rest.foldl scanStep (initScanState x0)

/-- The scan applied to a task row as in the source: anchor `row[500]`,
samples `row[501:]`. -/
def scanRow (row : List ℚ) : ScanState := runScan (row.getD 500 0) (row.drop 501)

/-- All differences `f earlier current` the specification's trailing-window
reading admits: for each position `j` of the stream, `f x (stream[j])` for
every `x` among the last `W` samples before `j`. -/
def diffsBy (f : ℚ → ℚ → ℚ) (W : ℕ) (ys : List ℚ) : List ℚ :=
  (List.range ys.length).flatMap
    (fun j => (lastN W (ys.take j)).map (fun x => f x (ys.getD j 0)))

/-- The forgetting drops of §4.3: earlier value minus current value, within
trailing distance `W`. -/
def wfDiffs (W : ℕ) (ys : List ℚ) : List ℚ := diffsBy (fun x c => x - c) W ys

/-- The plasticity rises of §4.3: current value minus earlier value, within
trailing distance `W`. -/
def wpDiffs (W : ℕ) (ys : List ℚ) : List ℚ := diffsBy (fun x c => c - x) W ys

/-! ## NaN-aware and NaN-propagating means (source lines 430-433)

`Option ℚ` models a float that may be NaN (`none`). -/

/-- `np.nanmean`: mean of the non-NaN entries, NaN when there are none. -/
def np_nanmean (l : List (Option ℚ)) : Option ℚ :=
  if (l.filterMap id).isEmpty then none
  else some ((l.filterMap id).sum / (l.filterMap id).length)

/-- `np.mean` over possibly-NaN values: any NaN (and the empty list)
makes the result NaN. -/
def np_mean_prop (l : List (Option ℚ)) : Option ℚ :=
  if l.isEmpty || l.any (fun x => x.isNone) then none
  else some ((l.filterMap id).sum / l.length)

/-- The per-trial aggregate of one metric column (source lines 430-433):
`np.nanmean` over each task's window values, then `np.mean` — not
`np.nanmean` — across tasks. -/
def trial_metric (tasks : List (List (Option ℚ))) : Option ℚ :=
  np_mean_prop (tasks.map np_nanmean)

/-! ## Cross-trial aggregation (source lines 298-299, 488-501) -/

/-- `ddof = 1 if n_experiments > 1 else 0` (source line 298). -/
def ddof_rule (n : ℕ) : ℕ := if 1 < n then 1 else 0

/-- `np.var(l, ddof=d)`, the square of `np.std(l, ddof=d)`: mean squared
deviation with denominator `len(l) - ddof`.  Under `ddof_rule` the
denominator is positive whenever `l` is non-empty. -/
def np_var_ddof (l : List ℚ) (ddof : ℕ) : ℚ :=
  (l.map (fun x => (x - np_mean l) ^ 2)).sum / ((l.length : ℚ) - (ddof : ℚ))

example : uniform_filter1d [1, 2, 3, 4, 5] = [9/5, 11/5, 3, 19/5, 21/5] := by
  simp [uniform_filter1d, reflectIdx, List.range_succ]
  norm_num

example : np_argmin [3, 1, 1, 2] = 1 := by norm_num [np_argmin]

example : uniform_filter1d [9, 9, 0, 0, 9, 9] = [36/5, 27/5, 27/5, 27/5, 27/5, 36/5] := by
  simp [uniform_filter1d, reflectIdx, List.range_succ]
  norm_num

example : min_window_index [9, 9, 0, 0, 9, 9] = 1 := by
  have h : uniform_filter1d [9, 9, 0, 0, 9, 9] = [36/5, 27/5, 27/5, 27/5, 27/5, 36/5] := by
    simp [uniform_filter1d, reflectIdx, List.range_succ]
    norm_num
  rw [min_window_index, h]
  norm_num [np_argmin]

example : recovery_window_index [9, 9, 0, 0, 9, 9] 6 = 5 := by
  have h : uniform_filter1d [9, 9, 0, 0, 9, 9] = [36/5, 27/5, 27/5, 27/5, 27/5, 36/5] := by
    simp [uniform_filter1d, reflectIdx, List.range_succ]
    norm_num
  rw [recovery_window_index]
  simp only [h]
  norm_num [np_argmin, firstGE]

/-! ## Lemmas about `maxD` and `listMax` -/

theorem maxD_nil (d : ℚ) : maxD d [] = d := rfl

theorem maxD_cons (d x : ℚ) (l : List ℚ) : maxD d (x :: l) = maxD (max d x) l := rfl

theorem maxD_append (d : ℚ) (l₁ l₂ : List ℚ) :
    maxD d (l₁ ++ l₂) = maxD (maxD d l₁) l₂ := by
  simp [maxD, List.foldl_append]

theorem le_maxD_init (d : ℚ) (l : List ℚ) : d ≤ maxD d l := by
  induction l generalizing d with
  | nil => exact le_refl d
  | cons x xs ih => exact le_trans (le_max_left d x) (ih (max d x))

theorem le_maxD_of_mem {x : ℚ} {l : List ℚ} (h : x ∈ l) (d : ℚ) : x ≤ maxD d l := by
  induction l generalizing d with
  | nil => cases h
  | cons y ys ih =>
    rcases List.mem_cons.mp h with rfl | hm
    · exact le_trans (le_max_right d x) (le_maxD_init _ _)
    · exact ih hm (max d y)

theorem maxD_le {d b : ℚ} {l : List ℚ} (hd : d ≤ b) (h : ∀ x ∈ l, x ≤ b) :
    maxD d l ≤ b := by
  induction l generalizing d with
  | nil => exact hd
  | cons y ys ih =>
    exact ih (max_le hd (h y (List.mem_cons_self y ys))) fun x hx => h x (List.mem_cons_of_mem y hx)

theorem maxD_mono_subset {d₁ d₂ : ℚ} {l₁ l₂ : List ℚ} (hd : d₁ ≤ d₂)
    (h : ∀ x ∈ l₁, x ∈ l₂) : maxD d₁ l₁ ≤ maxD d₂ l₂ :=
  maxD_le (le_trans hd (le_maxD_init _ _)) fun x hx => le_maxD_of_mem (h x hx) d₂

theorem max_maxD (a b : ℚ) (l : List ℚ) : maxD (max a b) l = max a (maxD b l) := by
  induction l generalizing b with
  | nil => rfl
  | cons y ys ih => rw [maxD_cons, max_assoc, ih, maxD_cons]

theorem listMax_cons (x : ℚ) (xs : List ℚ) : listMax (x :: xs) = maxD x xs := rfl

theorem maxD_of_ne_nil {l : List ℚ} (h : l ≠ []) (d : ℚ) :
    maxD d l = max d (listMax l) := by
  cases l with
  | nil => exact absurd rfl h
  | cons x xs => rw [listMax_cons, maxD_cons, ← max_maxD]

theorem le_listMax_of_mem {x : ℚ} {l : List ℚ} (h : x ∈ l) : x ≤ listMax l := by
  cases l with
  | nil => cases h
  | cons y ys =>
    rcases List.mem_cons.mp h with rfl | hm
    · exact le_maxD_init x ys
    · exact le_maxD_of_mem hm y

/-! ## Lemmas about `np_argmin` -/

theorem np_argmin_lt_length : ∀ l : List ℚ, l ≠ [] → np_argmin l < l.length
  | [_], _ => by simp [np_argmin]
  | x :: y :: ys, _ => by
    rw [np_argmin]
    split
    · simp
    · have := np_argmin_lt_length (y :: ys) (by simp)
      simpa [Nat.succ_lt_succ_iff] using this

theorem np_argmin_le_getD : ∀ (l : List ℚ) (k : ℕ), k < l.length →
    l.getD (np_argmin l) 0 ≤ l.getD k 0
  | [x], 0, _ => le_refl x
  | x :: y :: ys, k, hk => by
    rw [np_argmin]
    split
    · rename_i hx
      match k with
      | 0 => exact le_refl x
      | k' + 1 =>
        have hk' : k' < (y :: ys).length := by simpa using hk
        exact le_trans hx (np_argmin_le_getD (y :: ys) k' hk')
    · rename_i hx
      match k with
      | 0 => exact le_of_lt (lt_of_not_le hx)
      | k' + 1 =>
        have hk' : k' < (y :: ys).length := by simpa using hk
        exact np_argmin_le_getD (y :: ys) k' hk'

theorem np_argmin_first : ∀ (l : List ℚ) (k : ℕ), k < np_argmin l →
    l.getD (np_argmin l) 0 < l.getD k 0
  | [_], k, hk => by simp [np_argmin] at hk
  | x :: y :: ys, k, hk => by
    by_cases hx : x ≤ (y :: ys).getD (np_argmin (y :: ys)) 0
    · rw [np_argmin, if_pos hx] at hk
      omega
    · rw [np_argmin, if_neg hx] at hk ⊢
      match k with
      | 0 => exact lt_of_not_le hx
      | k' + 1 =>
        have hk' : k' < np_argmin (y :: ys) := by omega
        exact np_argmin_first (y :: ys) k' hk'

/-! ## Lemmas about the smoothing filter and the recovery scan -/

theorem uniform_filter1d_length (xs : List ℚ) :
    (uniform_filter1d xs).length = xs.length := by
  rw [uniform_filter1d, List.length_map, List.length_range]

theorem firstGE_some_lt_length {b : ℚ} : ∀ {l : List ℚ} {k : ℕ},
    firstGE b l = some k → k < l.length := by
  intro l
  induction l with
  | nil => intro k h; simp [firstGE] at h
  | cons v vs ih =>
    intro k h
    rw [firstGE] at h
    split at h
    · cases h
      simp
    · match hv : firstGE b vs with
      | none => rw [hv] at h; simp at h
      | some k' =>
        rw [hv] at h
        simp at h
        have hlt := ih hv
        have hlen : (v :: vs).length = vs.length + 1 := rfl
        omega

theorem min_window_index_lt_length {w : List ℚ} (h : w ≠ []) :
    min_window_index w < w.length := by
  have h0 : w.length ≠ 0 := fun hc => h (List.length_eq_zero.mp hc)
  have hne : uniform_filter1d w ≠ [] := by
    intro hc
    apply h0
    rw [← uniform_filter1d_length w, hc]
    rfl
  have hlt := np_argmin_lt_length _ hne
  rw [uniform_filter1d_length] at hlt
  exact hlt

theorem min_window_le_recovery (w : List ℚ) (b : ℚ) :
    min_window_index w ≤ recovery_window_index w b := by
  by_cases hnil : w = []
  · subst hnil
    exact Nat.zero_le _
  · rw [recovery_window_index, min_window_index]
    split
    · omega
    · have hlt := min_window_index_lt_length hnil
      rw [min_window_index] at hlt
      omega

theorem recovery_le_length_sub_one (w : List ℚ) (b : ℚ) :
    recovery_window_index w b ≤ w.length - 1 := by
  rw [recovery_window_index]
  split
  · rename_i k hk
    have hlt := firstGE_some_lt_length hk
    have hdrop : ((uniform_filter1d w).drop (np_argmin (uniform_filter1d w))).length
        = (uniform_filter1d w).length - np_argmin (uniform_filter1d w) := by
      simp
    rw [hdrop, uniform_filter1d_length] at hlt
    omega
  · omega


/-! ## Concrete evaluations shared by several witnesses -/

theorem uf_gap_example :
    uniform_filter1d [9, 9, 0, 0, 9, 9] = [36/5, 27/5, 27/5, 27/5, 27/5, 36/5] := by
  simp [uniform_filter1d, reflectIdx, List.range_succ]
  norm_num

theorem mwi_gap_example : min_window_index [9, 9, 0, 0, 9, 9] = 1 := by
  rw [min_window_index, uf_gap_example]
  norm_num [np_argmin]

theorem rwi_gap_example : recovery_window_index [9, 9, 0, 0, 9, 9] 6 = 5 := by
  rw [recovery_window_index]
  simp only [uf_gap_example]
  norm_num [np_argmin, firstGE]

/-- C1.  The value the code appends to `tbp_task` is the recovery scan's raw
cursor — the (post-default) recovery index itself — and not
`recovery_index - trough_index`: on the window `[9, 9, 0, 0, 9, 9]` with
baseline `6` the trough sits at index `1` and recovery at index `5`, so the
claim demands `4`, but the code appends `5`. -/
theorem c1_tbp_appends_raw_cursor :
    tbp_append_val [9, 9, 0, 0, 9, 9] 6 = 5 ∧
    min_window_index [9, 9, 0, 0, 9, 9] = 1 ∧
    recovery_window_index [9, 9, 0, 0, 9, 9] 6 -
      min_window_index [9, 9, 0, 0, 9, 9] = 4 ∧
    (5 : ℕ) ≠ 4 := by
  refine ⟨?_, mwi_gap_example, ?_, by norm_num⟩
  · rw [tbp_append_val, rwi_gap_example]
  · rw [rwi_gap_example, mwi_gap_example]

/-- C7.  `slope_recovery` is the smoothed rise divided by
`recovery_index - trough_index` when the recovery index is strictly past the
trough, and NaN (`none`, never an exception or a substituted default) when
the two coincide. -/
theorem c7_slope_recovery_nan_on_zero_denominator (w : List ℚ) (b : ℚ) :
    slope_up_val w b =
      if min_window_index w < recovery_window_index w b then
        some (((uniform_filter1d w).getD (recovery_window_index w b) 0 -
               (uniform_filter1d w).getD (min_window_index w) 0) /
              ((recovery_window_index w b : ℚ) - (min_window_index w : ℚ)))
      else none := by
  have hmr := min_window_le_recovery w b
  rw [slope_up_val]
  by_cases hlt : min_window_index w < recovery_window_index w b
  · have hne : ((recovery_window_index w b : ℚ) - (min_window_index w : ℚ)) ≠ 0 := by
      have : (min_window_index w : ℚ) < (recovery_window_index w b : ℚ) := by
        exact_mod_cast hlt
      linarith
    rw [qdiv, if_neg hne, if_pos hlt]
  · have heq : recovery_window_index w b = min_window_index w := le_antisymm (by omega) hmr
    have hz : ((recovery_window_index w b : ℚ) - (min_window_index w : ℚ)) = 0 := by
      rw [heq]; ring
    rw [qdiv, if_pos hz, if_neg hlt]

/-- C8.  For a non-empty window: the trough index is within bounds, it never
exceeds the recovery index, the recovery index never exceeds `iters - 1`, the
trough value is a minimum of the smoothed window, and on ties the trough is
the first index attaining it (every strictly earlier position is strictly
larger). -/
theorem c8_trough_recovery_bounds (w : List ℚ) (b : ℚ) (h : w ≠ []) :
    min_window_index w < w.length ∧
    min_window_index w ≤ recovery_window_index w b ∧
    recovery_window_index w b ≤ w.length - 1 ∧
    (∀ k < w.length, (uniform_filter1d w).getD (min_window_index w) 0 ≤
      (uniform_filter1d w).getD k 0) ∧
    (∀ k < min_window_index w, (uniform_filter1d w).getD (min_window_index w) 0 <
      (uniform_filter1d w).getD k 0) := by
  refine ⟨min_window_index_lt_length h, min_window_le_recovery w b,
    recovery_le_length_sub_one w b, ?_, ?_⟩
  · intro k hk
    have hk' : k < (uniform_filter1d w).length := by
      rw [uniform_filter1d_length]; exact hk
    exact np_argmin_le_getD (uniform_filter1d w) k hk'
  · intro k hk
    exact np_argmin_first (uniform_filter1d w) k hk

/-- Closed instance of `c8_trough_recovery_bounds` on the concrete window
`[9, 9, 0, 0, 9, 9]` with baseline `6`. -/
theorem c8_trough_recovery_bounds_witness :
    ([9, 9, 0, 0, 9, 9] : List ℚ) ≠ [] ∧
    (min_window_index [9, 9, 0, 0, 9, 9] < ([9, 9, 0, 0, 9, 9] : List ℚ).length ∧
    min_window_index [9, 9, 0, 0, 9, 9] ≤ recovery_window_index [9, 9, 0, 0, 9, 9] 6 ∧
    recovery_window_index [9, 9, 0, 0, 9, 9] 6 ≤ ([9, 9, 0, 0, 9, 9] : List ℚ).length - 1 ∧
    (∀ k < ([9, 9, 0, 0, 9, 9] : List ℚ).length,
      (uniform_filter1d [9, 9, 0, 0, 9, 9]).getD (min_window_index [9, 9, 0, 0, 9, 9]) 0 ≤
      (uniform_filter1d [9, 9, 0, 0, 9, 9]).getD k 0) ∧
    (∀ k < min_window_index [9, 9, 0, 0, 9, 9],
      (uniform_filter1d [9, 9, 0, 0, 9, 9]).getD (min_window_index [9, 9, 0, 0, 9, 9]) 0 <
      (uniform_filter1d [9, 9, 0, 0, 9, 9]).getD k 0)) :=
  ⟨by simp, c8_trough_recovery_bounds [9, 9, 0, 0, 9, 9] 6 (by simp)⟩

/-- C6.  The code's `sr_fixed` agrees with the specification formula: with
`distance_to_trough = trough_index + 1` and
`fixed_recovery_index = min(2*distance_to_trough, iters-1)`, it is
`(smoothed[fixed] - smoothed[trough]) / distance_to_trough` when
`fixed ≤ recovery_index` and
`(smoothed[recovery] - smoothed[trough]) / (recovery - trough)` otherwise. -/
theorem c6_slope_recovery_fixed (w : List ℚ) (b : ℚ) (h : w ≠ []) :
    sr_fixed_val w b =
      slope_recovery_fixed_spec (uniform_filter1d w) (min_window_index w)
        (recovery_window_index w b) w.length := by
  have hn : 1 ≤ w.length := List.length_pos.mpr h
  have hmin : new_recovery_index w =
      ((min (2 * (min_window_index w + 1)) (w.length - 1) : ℕ) : ℤ) := by
    rw [new_recovery_index, distance_to_minimum_in_window, window_baseline_index]
    omega
  have hdist : ((distance_to_minimum_in_window w : ℤ) : ℚ) = (min_window_index w : ℚ) + 1 := by
    rw [distance_to_minimum_in_window, window_baseline_index]
    push_cast
    ring
  rw [sr_fixed_val, slope_recovery_fixed_spec, hmin, hdist]
  simp only [Nat.cast_le, Int.toNat_natCast]

/-- Closed instance of `c6_slope_recovery_fixed` on the concrete window
`[9, 9, 0, 0, 9, 9]` with baseline `6`. -/
theorem c6_slope_recovery_fixed_witness :
    ([9, 9, 0, 0, 9, 9] : List ℚ) ≠ [] ∧
    sr_fixed_val [9, 9, 0, 0, 9, 9] 6 =
      slope_recovery_fixed_spec (uniform_filter1d [9, 9, 0, 0, 9, 9])
        (min_window_index [9, 9, 0, 0, 9, 9])
        (recovery_window_index [9, 9, 0, 0, 9, 9] 6)
        ([9, 9, 0, 0, 9, 9] : List ℚ).length :=
  ⟨by simp, c6_slope_recovery_fixed [9, 9, 0, 0, 9, 9] 6 (by simp)⟩

/-- C9.  The cross-trial aggregator uses `ddof = 1` for more than one trial
and `ddof = 0` for a single trial, and on `n ≥ 1` identical trial values its
mean is that value exactly and its standard error is exactly `0`. -/
theorem c9_identical_trials_sem_zero (n : ℕ) (c : ℚ) (h : 0 < n) :
    (n = 1 → ddof_rule n = 0) ∧
    (1 < n → ddof_rule n = 1) ∧
    np_mean (List.replicate n c) = c ∧
    np_var_ddof (List.replicate n c) (ddof_rule n) = 0 ∧
    Real.sqrt ((np_var_ddof (List.replicate n c) (ddof_rule n) : ℚ) : ℝ) /
      Real.sqrt (n : ℝ) = 0 := by
  have hnq : ((n : ℚ)) ≠ 0 := Nat.cast_ne_zero.mpr (Nat.pos_iff_ne_zero.mp h)
  have hmean : np_mean (List.replicate n c) = c := by
    rw [np_mean, List.sum_replicate, List.length_replicate, nsmul_eq_mul]
    field_simp
  have hvar : np_var_ddof (List.replicate n c) (ddof_rule n) = 0 := by
    rw [np_var_ddof, hmean, List.map_replicate]
    simp
  refine ⟨fun h1 => by rw [ddof_rule, if_neg (by omega)],
    fun h1 => by rw [ddof_rule, if_pos h1], hmean, hvar, ?_⟩
  rw [hvar]
  simp

/-- Closed instance of `c9_identical_trials_sem_zero` at `n = 3`, `c = 7`. -/
theorem c9_identical_trials_sem_zero_witness :
    0 < 3 ∧
    ((3 = 1 → ddof_rule 3 = 0) ∧
    (1 < 3 → ddof_rule 3 = 1) ∧
    np_mean (List.replicate 3 (7 : ℚ)) = 7 ∧
    np_var_ddof (List.replicate 3 (7 : ℚ)) (ddof_rule 3) = 0 ∧
    Real.sqrt ((np_var_ddof (List.replicate 3 (7 : ℚ)) (ddof_rule 3) : ℚ) : ℝ) /
      Real.sqrt ((3 : ℕ) : ℝ) = 0) :=
  ⟨by norm_num, c9_identical_trials_sem_zero 3 7 (by norm_num)⟩

/-- C3 counterexample.  With one task whose only window value is real and a
second task whose only window value is NaN, the code's per-trial aggregate
(`np.mean` across tasks, source line 433) is NaN, while the claimed NaN-aware
mean of the real values alone is `1`. -/
theorem c3_per_trial_mean_propagates_nan :
    trial_metric [[some 1], [none]] = none ∧
    np_nanmean (([[some (1 : ℚ)], [none]] : List (List (Option ℚ))).map np_nanmean) =
      some 1 := by
  have h1 : np_nanmean [some (1 : ℚ)] = some 1 := by
    rw [np_nanmean]
    norm_num [List.filterMap_cons]
  have h0 : np_nanmean ([none] : List (Option ℚ)) = none := by
    rw [np_nanmean]
    norm_num [List.filterMap_cons]
  constructor
  · rw [trial_metric, List.map_cons, List.map_cons, List.map_nil, h1, h0, np_mean_prop]
    norm_num
  · rw [List.map_cons, List.map_cons, List.map_nil, h1, h0, np_nanmean]
    norm_num [List.filterMap_cons]

/-- C3 amended.  The per-task aggregate over windows is NaN-aware, but the
per-trial aggregate across tasks is a plain mean: when every task has at
least one real window value the per-trial value is the real mean of the
per-task NaN-excluded means, and when some task's window values are all NaN
the per-trial value is NaN. -/
theorem c3_per_task_nanaware_per_trial_plain (tasks : List (List (Option ℚ)))
    (hne : tasks ≠ []) :
    ((∀ t ∈ tasks, t.filterMap id ≠ []) →
      trial_metric tasks =
        some (((tasks.map np_nanmean).filterMap id).sum / (tasks.length : ℚ))) ∧
    ((∃ t ∈ tasks, t.filterMap id = []) → trial_metric tasks = none) := by
  have hmapne : tasks.map np_nanmean ≠ [] := by
    simpa using hne
  constructor
  · intro h
    have hsome : ∀ x ∈ tasks.map np_nanmean, x.isNone = false := by
      intro x hx
      obtain ⟨t, ht, rfl⟩ := List.mem_map.mp hx
      rw [np_nanmean, if_neg (by simpa [List.isEmpty_iff] using h t ht)]
      rfl
    have hcond : ¬ (((tasks.map np_nanmean).isEmpty ||
        (tasks.map np_nanmean).any fun x => x.isNone) = true) := by
      intro hc
      simp only [Bool.or_eq_true] at hc
      rcases hc with hc | hc
      · exact hmapne (List.isEmpty_iff.mp hc)
      · obtain ⟨x, hx, hno⟩ := List.any_eq_true.mp hc
        rw [hsome x hx] at hno
        cases hno
    rw [trial_metric, np_mean_prop, if_neg hcond, List.length_map]
  · rintro ⟨t, ht, hempty⟩
    have hnone : np_nanmean t = none := by
      rw [np_nanmean, if_pos (by simp [hempty])]
    have hcond : (((tasks.map np_nanmean).isEmpty ||
        (tasks.map np_nanmean).any fun x => x.isNone) = true) := by
      have hany : ((tasks.map np_nanmean).any fun x => x.isNone) = true := by
        rw [List.any_eq_true]
        exact ⟨np_nanmean t, List.mem_map_of_mem _ ht, by rw [hnone]; rfl⟩
      rw [hany, Bool.or_true]
    rw [trial_metric, np_mean_prop, if_pos hcond]

/-- Closed instance of `c3_per_task_nanaware_per_trial_plain`: two tasks with
window values `[2, NaN]` and `[4]` give the per-trial value `3`. -/
theorem c3_per_task_nanaware_per_trial_plain_witness :
    trial_metric [[some 2, none], [some 4]] = some 3 := by
  have h2 : np_nanmean [some (2 : ℚ), none] = some 2 := by
    rw [np_nanmean]
    norm_num [List.filterMap_cons]
  have h4 : np_nanmean [some (4 : ℚ)] = some 4 := by
    rw [np_nanmean]
    norm_num [List.filterMap_cons]
  have h := (c3_per_task_nanaware_per_trial_plain [[some 2, none], [some 4]]
    (by simp)).1 (by simp [List.filterMap_cons])
  rw [h, List.map_cons, List.map_cons, List.map_nil, h2, h4]
  norm_num [List.filterMap_cons]

/-- `getD` of a map over `List.range`. -/
theorem getD_map_range (f : ℕ → ℚ) {n i : ℕ} (h : i < n) (d : ℚ) :
    ((List.range n).map f).getD i d = f i := by
  rw [List.getD_eq_getElem?_getD, List.getElem?_map, List.getElem?_range h]
  rfl

/-- Pointwise form of the smoothing filter: position `i` is the mean of the
five reflect-resolved samples centered there. -/
theorem uniform_filter1d_getD (xs : List ℚ) (i : ℕ) (hi : i < xs.length) :
    (uniform_filter1d xs).getD i 0 =
      (xs.getD (reflectIdx xs.length ((i : ℤ) - 2)) 0 +
       xs.getD (reflectIdx xs.length ((i : ℤ) - 1)) 0 +
       xs.getD (reflectIdx xs.length ((i : ℤ))) 0 +
       xs.getD (reflectIdx xs.length ((i : ℤ) + 1)) 0 +
       xs.getD (reflectIdx xs.length ((i : ℤ) + 2)) 0) / 5 := by
  rw [uniform_filter1d, getD_map_range _ hi]
  have h5 : List.range 5 = [0, 1, 2, 3, 4] := rfl
  rw [h5]
  simp only [List.map_cons, List.map_nil, List.sum_cons, List.sum_nil]
  norm_num
  ring_nf

theorem uf_12345 :
    uniform_filter1d [1, 2, 3, 4, 5] = [9/5, 11/5, 3, 19/5, 21/5] := by
  simp [uniform_filter1d, reflectIdx, List.range_succ]
  norm_num

/-- C2 counterexample.  On input `[1, 2, 3, 4, 5]` the code's boundary value
at position `0` is `9/5` — the reflect-padded mean `(2·1 + 2·2 + 3)/5` — while
the truncated mean over the real samples alone is `(1 + 2 + 3)/3 = 2`. -/
theorem c2_boundary_not_truncated :
    (uniform_filter1d [1, 2, 3, 4, 5]).getD 0 0 = 9/5 ∧
    (smoothed_window_truncated [1, 2, 3, 4, 5]).getD 0 0 = 2 ∧
    (9/5 : ℚ) ≠ 2 := by
  refine ⟨?_, ?_, by norm_num⟩
  · rw [uf_12345]
    rfl
  · norm_num [smoothed_window_truncated, List.range_succ]

/-- C2 amended.  The filter preserves length and interior elements are the
plain mean of the five real neighbors, but boundary positions use scipy's
default reflect padding (edge-mirrored, duplicating edge samples), not a
truncated mean over the available real samples. -/
theorem c2_smoothing_reflect_boundary (xs : List ℚ) (h : 5 ≤ xs.length) :
    (uniform_filter1d xs).length = xs.length ∧
    (∀ i, 2 ≤ i → i + 2 < xs.length →
      (uniform_filter1d xs).getD i 0 =
        (xs.getD (i - 2) 0 + xs.getD (i - 1) 0 + xs.getD i 0 +
         xs.getD (i + 1) 0 + xs.getD (i + 2) 0) / 5) ∧
    (uniform_filter1d xs).getD 0 0 =
      (2 * xs.getD 0 0 + 2 * xs.getD 1 0 + xs.getD 2 0) / 5 ∧
    (uniform_filter1d xs).getD 1 0 =
      (2 * xs.getD 0 0 + xs.getD 1 0 + xs.getD 2 0 + xs.getD 3 0) / 5 ∧
    (uniform_filter1d xs).getD (xs.length - 1) 0 =
      (xs.getD (xs.length - 3) 0 + 2 * xs.getD (xs.length - 2) 0 +
       2 * xs.getD (xs.length - 1) 0) / 5 ∧
    (uniform_filter1d xs).getD (xs.length - 2) 0 =
      (xs.getD (xs.length - 4) 0 + xs.getD (xs.length - 3) 0 +
       xs.getD (xs.length - 2) 0 + 2 * xs.getD (xs.length - 1) 0) / 5 := by
  refine ⟨uniform_filter1d_length xs, ?_, ?_, ?_, ?_, ?_⟩
  · intro i h2 hi
    rw [uniform_filter1d_getD xs i (by omega)]
    have e1 : reflectIdx xs.length ((i : ℤ) - 2) = i - 2 := by
      simp only [reflectIdx]; split_ifs <;> omega
    have e2 : reflectIdx xs.length ((i : ℤ) - 1) = i - 1 := by
      simp only [reflectIdx]; split_ifs <;> omega
    have e3 : reflectIdx xs.length ((i : ℤ)) = i := by
      simp only [reflectIdx]; split_ifs <;> omega
    have e4 : reflectIdx xs.length ((i : ℤ) + 1) = i + 1 := by
      simp only [reflectIdx]; split_ifs <;> omega
    have e5 : reflectIdx xs.length ((i : ℤ) + 2) = i + 2 := by
      simp only [reflectIdx]; split_ifs <;> omega
    rw [e1, e2, e3, e4, e5]
  · rw [uniform_filter1d_getD xs 0 (by omega)]
    have e1 : reflectIdx xs.length (((0 : ℕ) : ℤ) - 2) = 1 := by
      simp only [reflectIdx]; split_ifs <;> omega
    have e2 : reflectIdx xs.length (((0 : ℕ) : ℤ) - 1) = 0 := by
      simp only [reflectIdx]; split_ifs <;> omega
    have e3 : reflectIdx xs.length (((0 : ℕ) : ℤ)) = 0 := by
      simp only [reflectIdx]; split_ifs <;> omega
    have e4 : reflectIdx xs.length (((0 : ℕ) : ℤ) + 1) = 1 := by
      simp only [reflectIdx]; split_ifs <;> omega
    have e5 : reflectIdx xs.length (((0 : ℕ) : ℤ) + 2) = 2 := by
      simp only [reflectIdx]; split_ifs <;> omega
    rw [e1, e2, e3, e4, e5]
    ring
  · rw [uniform_filter1d_getD xs 1 (by omega)]
    have e1 : reflectIdx xs.length (((1 : ℕ) : ℤ) - 2) = 0 := by
      simp only [reflectIdx]; split_ifs <;> omega
    have e2 : reflectIdx xs.length (((1 : ℕ) : ℤ) - 1) = 0 := by
      simp only [reflectIdx]; split_ifs <;> omega
    have e3 : reflectIdx xs.length (((1 : ℕ) : ℤ)) = 1 := by
      simp only [reflectIdx]; split_ifs <;> omega
    have e4 : reflectIdx xs.length (((1 : ℕ) : ℤ) + 1) = 2 := by
      simp only [reflectIdx]; split_ifs <;> omega
    have e5 : reflectIdx xs.length (((1 : ℕ) : ℤ) + 2) = 3 := by
      simp only [reflectIdx]; split_ifs <;> omega
    rw [e1, e2, e3, e4, e5]
    ring
  · rw [uniform_filter1d_getD xs (xs.length - 1) (by omega)]
    have e1 : reflectIdx xs.length (((xs.length - 1 : ℕ) : ℤ) - 2) = xs.length - 3 := by
      simp only [reflectIdx]; split_ifs <;> omega
    have e2 : reflectIdx xs.length (((xs.length - 1 : ℕ) : ℤ) - 1) = xs.length - 2 := by
      simp only [reflectIdx]; split_ifs <;> omega
    have e3 : reflectIdx xs.length (((xs.length - 1 : ℕ) : ℤ)) = xs.length - 1 := by
      simp only [reflectIdx]; split_ifs <;> omega
    have e4 : reflectIdx xs.length (((xs.length - 1 : ℕ) : ℤ) + 1) = xs.length - 1 := by
      simp only [reflectIdx]; split_ifs <;> omega
    have e5 : reflectIdx xs.length (((xs.length - 1 : ℕ) : ℤ) + 2) = xs.length - 2 := by
      simp only [reflectIdx]; split_ifs <;> omega
    rw [e1, e2, e3, e4, e5]
    ring
  · rw [uniform_filter1d_getD xs (xs.length - 2) (by omega)]
    have e1 : reflectIdx xs.length (((xs.length - 2 : ℕ) : ℤ) - 2) = xs.length - 4 := by
      simp only [reflectIdx]; split_ifs <;> omega
    have e2 : reflectIdx xs.length (((xs.length - 2 : ℕ) : ℤ) - 1) = xs.length - 3 := by
      simp only [reflectIdx]; split_ifs <;> omega
    have e3 : reflectIdx xs.length (((xs.length - 2 : ℕ) : ℤ)) = xs.length - 2 := by
      simp only [reflectIdx]; split_ifs <;> omega
    have e4 : reflectIdx xs.length (((xs.length - 2 : ℕ) : ℤ) + 1) = xs.length - 1 := by
      simp only [reflectIdx]; split_ifs <;> omega
    have e5 : reflectIdx xs.length (((xs.length - 2 : ℕ) : ℤ) + 2) = xs.length - 1 := by
      simp only [reflectIdx]; split_ifs <;> omega
    rw [e1, e2, e3, e4, e5]
    ring

/-- Closed instance of `c2_smoothing_reflect_boundary` on `[1, 2, 3, 4, 5]`:
the interior position `2` is the plain mean `3` of all five samples. -/
theorem c2_smoothing_reflect_boundary_witness :
    (uniform_filter1d [1, 2, 3, 4, 5]).getD 2 0 = 3 := by
  have h := ((c2_smoothing_reflect_boundary [1, 2, 3, 4, 5] (by norm_num)).2.1) 2
    (by norm_num) (by norm_num)
  rw [h]
  norm_num

/-! ## Performance-log lemmas -/

theorem getD_eq_getElem_of_lt (l : List (List ℚ)) {j : ℕ} (h : j < l.length) :
    l.getD j [] = l[j] := by
  rw [List.getD_eq_getElem?_getD, List.getElem?_eq_getElem h]
  rfl

theorem appendSamples_length (k : ℕ) (a : ℕ → ℚ) (rows : List (List ℚ)) :
    (appendSamples k a rows).length = rows.length := by
  rw [appendSamples, List.length_mapIdx]

theorem appendSamples_row_length (k : ℕ) (a : ℕ → ℚ) (rows : List (List ℚ))
    {j : ℕ} (hj : j < rows.length) :
    ((appendSamples k a rows).getD j []).length =
      (rows.getD j []).length + (if j < k then 1 else 0) := by
  have hj' : j < (appendSamples k a rows).length := by
    rw [appendSamples_length]; exact hj
  rw [getD_eq_getElem_of_lt _ hj', getD_eq_getElem_of_lt _ hj]
  simp only [appendSamples, List.getElem_mapIdx]
  split_ifs with hk
  · simp
  · rfl

theorem trainPhase_length (k iters : ℕ) (a : ℕ → ℕ → ℚ) (rows : List (List ℚ)) :
    (trainPhase k iters a rows).length = rows.length := by
  rw [trainPhase]
  induction iters generalizing rows with
  | zero => rfl
  | succ m ih =>
    rw [List.range_succ, List.foldl_append]
    rw [List.foldl_cons, List.foldl_nil, appendSamples_length, ih]

theorem trainPhase_row_length (k iters : ℕ) (a : ℕ → ℕ → ℚ) (rows : List (List ℚ))
    {j : ℕ} (hj : j < rows.length) :
    ((trainPhase k iters a rows).getD j []).length =
      (rows.getD j []).length + (if j < k then iters else 0) := by
  rw [trainPhase]
  induction iters generalizing rows with
  | zero => simp
  | succ m ih =>
    rw [List.range_succ, List.foldl_append, List.foldl_cons, List.foldl_nil]
    have hlen : j < ((List.range m).foldl (fun rs it => appendSamples k (a it) rs) rows).length := by
      have h1 : ((List.range m).foldl (fun rs it => appendSamples k (a it) rs) rows).length
          = rows.length := by
        rw [← trainPhase]
        exact trainPhase_length k m a rows
      rw [h1]; exact hj
    rw [appendSamples_row_length k (a m) _ hlen, ih rows hj]
    split_ifs <;> omega

theorem performanceLog_length (n_tasks iters : ℕ) (acc : ℕ → ℕ → ℕ → ℚ) :
    (performanceLog n_tasks iters acc).length = n_tasks := by
  rw [performanceLog]
  have hgen : ∀ (p : ℕ) (rows : List (List ℚ)),
      ((List.range p).foldl (fun rs t => trainPhase (t + 1) iters (acc t) rs) rows).length
        = rows.length := by
    intro p
    induction p with
    | zero => intro rows; rfl
    | succ m ih =>
      intro rows
      rw [List.range_succ, List.foldl_append, List.foldl_cons, List.foldl_nil,
        trainPhase_length, ih]
  rw [hgen, List.length_replicate]

theorem performanceLog_fold_row_length (iters : ℕ) (acc : ℕ → ℕ → ℕ → ℚ) :
    ∀ (p : ℕ) (rows : List (List ℚ)) (j : ℕ), j < rows.length →
      (((List.range p).foldl (fun rs t => trainPhase (t + 1) iters (acc t) rs) rows).getD j []).length
        = (rows.getD j []).length + iters * (p - j) := by
  intro p
  induction p with
  | zero => intro rows j hj; simp
  | succ m ih =>
    intro rows j hj
    rw [List.range_succ, List.foldl_append, List.foldl_cons, List.foldl_nil]
    have hlen : j < ((List.range m).foldl (fun rs t => trainPhase (t + 1) iters (acc t) rs) rows).length := by
      have h1 : ∀ (q : ℕ) (rs : List (List ℚ)),
          ((List.range q).foldl (fun rs t => trainPhase (t + 1) iters (acc t) rs) rs).length
            = rs.length := by
        intro q
        induction q with
        | zero => intro rs; rfl
        | succ mq ihq =>
          intro rs
          rw [List.range_succ, List.foldl_append, List.foldl_cons, List.foldl_nil,
            trainPhase_length, ihq]
      rw [h1]; exact hj
    rw [trainPhase_row_length (m + 1) iters (acc m) _ hlen, ih rows j hj]
    split_ifs with hjk
    · have hsub : m + 1 - j = (m - j) + 1 := by omega
      rw [hsub, Nat.mul_succ, Nat.add_assoc]
    · have h1 : m + 1 - j = 0 := by omega
      have h2 : m - j = 0 := by omega
      rw [h1, h2, Nat.add_zero]

theorem performanceLog_row_length (n_tasks iters : ℕ) (acc : ℕ → ℕ → ℕ → ℚ)
    {j : ℕ} (hj : j < n_tasks) :
    ((performanceLog n_tasks iters acc).getD j []).length = iters * (n_tasks - j) := by
  rw [performanceLog]
  rw [performanceLog_fold_row_length iters acc n_tasks (List.replicate n_tasks []) j
    (by rw [List.length_replicate]; exact hj)]
  have hrep : ((List.replicate n_tasks ([] : List ℚ)).getD j []).length = 0 := by
    rw [getD_eq_getElem_of_lt _ (by rw [List.length_replicate]; exact hj)]
    rw [List.getElem_replicate]
    rfl
  rw [hrep]
  omega

/-- C5 amended.  Row `j` of the performance log has length
`iters * (n_tasks - j)`: task `j` starts accumulating one sample per
iteration already during its own training phase (1-indexed task `j+1`),
not only from task `j+2` on. -/
theorem c5_row_length (n_tasks iters : ℕ) (acc : ℕ → ℕ → ℕ → ℚ)
    {j : ℕ} (hj : j < n_tasks) :
    ((performanceLog n_tasks iters acc).getD j []).length = iters * (n_tasks - j) :=
  performanceLog_row_length n_tasks iters acc hj

/-- Closed instance of `c5_row_length`: with two tasks and six iterations,
row `0` has `12` samples. -/
theorem c5_row_length_witness :
    ((performanceLog 2 6 (fun _ _ _ => 0)).getD 0 []).length = 6 * (2 - 0) :=
  c5_row_length 2 6 (fun _ _ _ => 0) (by norm_num)

/-- C5 counterexample.  With `n_tasks = 2` and `iters = 6`, row `0` of the
performance log has `12` samples, not `iters * (n_tasks - 0 - 1) = 6` as the
claim states: samples are recorded already during task `0`'s own training.
Likewise the last row has `6` samples, not `0`. -/
theorem c5_row_not_claimed_length :
    ((performanceLog 2 6 (fun _ _ _ => 0)).getD 0 []).length = 12 ∧
    (12 : ℕ) ≠ 6 * (2 - 0 - 1) ∧
    ((performanceLog 2 6 (fun _ _ _ => 0)).getD 1 []).length = 6 ∧
    (6 : ℕ) ≠ 6 * (2 - 1 - 1) := by
  refine ⟨?_, by norm_num, ?_, by norm_num⟩
  · rw [performanceLog_row_length 2 6 (fun _ _ _ => 0) (by norm_num)]
  · rw [performanceLog_row_length 2 6 (fun _ _ _ => 0) (by norm_num)]

/-! ## Lemmas about `lastN`, `diffsBy` and the sliding-extremum scan -/

theorem lastN_of_le {W : ℕ} {l : List ℚ} (h : l.length ≤ W) : lastN W l = l := by
  rw [lastN, Nat.sub_eq_zero_of_le h, List.drop_zero]

theorem lastN_ne_nil {W : ℕ} {l : List ℚ} (hW : 1 ≤ W) (hl : l ≠ []) :
    lastN W l ≠ [] := by
  intro hc
  apply hl
  have hlen := congrArg List.length hc
  rw [lastN, List.length_drop] at hlen
  simp only [List.length_nil] at hlen
  have h0 : l.length = 0 := by omega
  exact List.length_eq_zero.mp h0

theorem lastN_mem {W : ℕ} {l : List ℚ} {x : ℚ} (h : x ∈ lastN W l) : x ∈ l :=
  List.mem_of_mem_drop h

theorem lastN_mem_of_le {W₁ W₂ : ℕ} {l : List ℚ} {x : ℚ} (hW : W₁ ≤ W₂)
    (h : x ∈ lastN W₁ l) : x ∈ lastN W₂ l := by
  rw [lastN] at h ⊢
  have hsplit : l.length - W₁ = (l.length - W₂) + ((l.length - W₁) - (l.length - W₂)) := by
    omega
  rw [hsplit, ← List.drop_drop] at h
  exact List.mem_of_mem_drop h

theorem lastN_append_one {W : ℕ} (hW : 1 ≤ W) (l : List ℚ) (c : ℚ) :
    lastN W (l ++ [c]) = evictTo W (lastN W l ++ [c]) := by
  by_cases hlen : l.length < W
  · have h1 : lastN W l = l := lastN_of_le (by omega)
    have h2 : lastN W (l ++ [c]) = l ++ [c] := by
      apply lastN_of_le
      rw [List.length_append, List.length_singleton]
      omega
    rw [h1, h2, evictTo, if_neg]
    rw [List.length_append, List.length_singleton]
    omega
  · push_neg at hlen
    have hlast_len : (lastN W l).length = W := by
      rw [lastN, List.length_drop]
      omega
    have hcond : (lastN W l ++ [c]).length = W + 1 := by
      rw [List.length_append, List.length_singleton, hlast_len]
    rw [evictTo, if_pos hcond]
    rw [lastN, lastN]
    have hd1 : (l ++ [c]).length - W = (l.length - W) + 1 := by
      rw [List.length_append, List.length_singleton]
      omega
    rw [hd1]
    have hdrop_le : l.length - W + 1 ≤ l.length := by omega
    rw [List.drop_append_of_le_length hdrop_le]
    have hAne : l.drop (l.length - W) ≠ [] := by
      intro hc
      have := congrArg List.length hc
      rw [List.length_drop] at this
      simp only [List.length_nil] at this
      omega
    obtain ⟨a, as, has⟩ := List.exists_cons_of_ne_nil hAne
    have htail : (l.drop (l.length - W) ++ [c]).tail = (l.drop (l.length - W)).tail ++ [c] := by
      rw [has]
      rfl
    rw [htail, ← List.drop_one, List.drop_drop]

theorem diffsBy_single (f : ℚ → ℚ → ℚ) (W : ℕ) (x : ℚ) : diffsBy f W [x] = [] := by
  simp [diffsBy, lastN]

theorem flatMap_congr_on {g g' : ℕ → List ℚ} :
    ∀ js : List ℕ, (∀ j ∈ js, g' j = g j) → js.flatMap g' = js.flatMap g := by
  intro js
  induction js with
  | nil => intro _; rfl
  | cons j js ih =>
    intro h
    rw [List.flatMap_cons, List.flatMap_cons, h j (List.mem_cons_self j js),
      ih fun a ha => h a (List.mem_cons_of_mem j ha)]

theorem diffsBy_append_one (f : ℚ → ℚ → ℚ) (W : ℕ) (l : List ℚ) (c : ℚ) :
    diffsBy f W (l ++ [c]) = diffsBy f W l ++ (lastN W l).map (fun x => f x c) := by
  rw [diffsBy, diffsBy]
  have hlen : (l ++ [c]).length = l.length + 1 := by
    rw [List.length_append, List.length_singleton]
  rw [hlen, List.range_succ, List.flatMap_append]
  congr 1
  · apply flatMap_congr_on
    intro j hj
    have hjlt : j < l.length := List.mem_range.mp hj
    rw [List.take_append_of_le_length (le_of_lt hjlt), List.getD_append _ _ _ _ hjlt]
  · simp only [List.flatMap_cons, List.flatMap_nil, List.append_nil]
    rw [List.take_left, List.getD_append_right _ _ _ _ (le_refl _), Nat.sub_self]
    rfl

theorem wfDiffs_append_one (W : ℕ) (l : List ℚ) (c : ℚ) :
    wfDiffs W (l ++ [c]) = wfDiffs W l ++ (lastN W l).map (fun x => x - c) := by
  rw [wfDiffs, wfDiffs, diffsBy_append_one]

theorem wpDiffs_append_one (W : ℕ) (l : List ℚ) (c : ℚ) :
    wpDiffs W (l ++ [c]) = wpDiffs W l ++ (lastN W l).map (fun x => c - x) := by
  rw [wpDiffs, wpDiffs, diffsBy_append_one]

theorem map_ne_nil_of_ne_nil {g : ℚ → ℚ} {l : List ℚ} (h : l ≠ []) :
    l.map g ≠ [] := by
  intro hc
  exact h (List.map_eq_nil_iff.mp hc)

/-- Characterization of the sliding-extremum scan: after consuming the whole
stream, each running maximum is the seeded fold of all admissible
trailing-window differences, and each comparison array holds the last `W`
samples of the stream. -/
theorem runScan_spec (x0 : ℚ) (xs : List ℚ) :
    runScan x0 xs =
      { wf_max_10 := maxD WF_INIT (wfDiffs 10 (x0 :: xs))
        wf_max_100 := maxD WF_INIT (wfDiffs 100 (x0 :: xs))
        wp_max_10 := maxD WF_INIT (wpDiffs 10 (x0 :: xs))
        wp_max_100 := maxD WF_INIT (wpDiffs 100 (x0 :: xs))
        arr10 := lastN 10 (x0 :: xs)
        arr100 := lastN 100 (x0 :: xs) } := by
  induction xs using List.reverseRecOn with
  | nil =>
    rw [runScan, List.foldl_nil, initScanState]
    have h10 : lastN 10 [x0] = [x0] := lastN_of_le (by norm_num)
    have h100 : lastN 100 [x0] = [x0] := lastN_of_le (by norm_num)
    simp only [wfDiffs, wpDiffs, diffsBy_single, maxD_nil, h10, h100]
  | append_singleton ys c ih =>
    have hfold : runScan x0 (ys ++ [c]) = scanStep (runScan x0 ys) c := by
      rw [runScan, runScan, List.foldl_append, List.foldl_cons, List.foldl_nil]
    have hcons : x0 :: (ys ++ [c]) = (x0 :: ys) ++ [c] := rfl
    have hne10 : (lastN 10 (x0 :: ys)).map (fun x => x - c) ≠ [] :=
      map_ne_nil_of_ne_nil (lastN_ne_nil (by norm_num) (List.cons_ne_nil x0 ys))
    have hne100 : (lastN 100 (x0 :: ys)).map (fun x => x - c) ≠ [] :=
      map_ne_nil_of_ne_nil (lastN_ne_nil (by norm_num) (List.cons_ne_nil x0 ys))
    have hne10p : (lastN 10 (x0 :: ys)).map (fun x => c - x) ≠ [] :=
      map_ne_nil_of_ne_nil (lastN_ne_nil (by norm_num) (List.cons_ne_nil x0 ys))
    have hne100p : (lastN 100 (x0 :: ys)).map (fun x => c - x) ≠ [] :=
      map_ne_nil_of_ne_nil (lastN_ne_nil (by norm_num) (List.cons_ne_nil x0 ys))
    rw [hfold, ih, scanStep, hcons]
    simp only [ScanState.mk.injEq]
    refine ⟨?_, ?_, ?_, ?_, ?_, ?_⟩
    · rw [wfDiffs_append_one, maxD_append, maxD_of_ne_nil hne10]
    · rw [wfDiffs_append_one, maxD_append, maxD_of_ne_nil hne100]
    · rw [wpDiffs_append_one, maxD_append, maxD_of_ne_nil hne10p]
    · rw [wpDiffs_append_one, maxD_append, maxD_of_ne_nil hne100p]
    · rw [lastN_append_one (by norm_num)]
    · rw [lastN_append_one (by norm_num)]

theorem diffsBy_mono_W (f : ℚ → ℚ → ℚ) {W₁ W₂ : ℕ} {ys : List ℚ} {d : ℚ}
    (hW : W₁ ≤ W₂) (hd : d ∈ diffsBy f W₁ ys) : d ∈ diffsBy f W₂ ys := by
  rw [diffsBy] at hd ⊢
  obtain ⟨j, hj, hd⟩ := List.mem_flatMap.mp hd
  obtain ⟨x, hx, rfl⟩ := List.mem_map.mp hd
  exact List.mem_flatMap.mpr ⟨j, hj, List.mem_map.mpr ⟨x, lastN_mem_of_le hW hx, rfl⟩⟩

theorem diffsBy_head_mem (f : ℚ → ℚ → ℚ) {W : ℕ} (hW : 1 ≤ W) (x0 x1 : ℚ)
    (rest : List ℚ) : f x0 x1 ∈ diffsBy f W (x0 :: x1 :: rest) := by
  rw [diffsBy]
  apply List.mem_flatMap.mpr
  refine ⟨1, List.mem_range.mpr (by simp), ?_⟩
  have h1 : (x0 :: x1 :: rest).take 1 = [x0] := rfl
  have h2 : lastN W [x0] = [x0] := lastN_of_le (by simpa using hW)
  have h3 : (x0 :: x1 :: rest).getD 1 0 = x1 := rfl
  rw [h1, h2, h3]
  simp

theorem maxD_init_eq_listMax {D : List ℚ} (d0 : ℚ) (hd0 : d0 ∈ D)
    (hge : WF_INIT ≤ d0) : maxD WF_INIT D = listMax D := by
  rw [maxD_of_ne_nil (List.ne_nil_of_mem hd0)]
  exact max_eq_right (le_trans hge (le_listMax_of_mem hd0))

/-- C4.  For accuracy-valued streams (each sample in `[0, 100]`) with at
least one sample after the anchor, the scan's four results are exactly the
maxima of all trailing-window differences — earlier-minus-current for WF and
current-minus-earlier for WP, within trailing distance `W ∈ {10, 100}` — and
the two comparison arrays are exactly the last `W` samples seen; the
`-sys.maxsize - 1` initialization never survives a comparison. -/
theorem c4_sliding_extremum_scan (x0 : ℚ) (xs : List ℚ) (hne : xs ≠ [])
    (hb : ∀ y ∈ x0 :: xs, 0 ≤ y ∧ y ≤ 100) :
    (runScan x0 xs).arr10 = lastN 10 (x0 :: xs) ∧
    (runScan x0 xs).arr100 = lastN 100 (x0 :: xs) ∧
    (runScan x0 xs).wf_max_10 = listMax (wfDiffs 10 (x0 :: xs)) ∧
    (runScan x0 xs).wf_max_100 = listMax (wfDiffs 100 (x0 :: xs)) ∧
    (runScan x0 xs).wp_max_10 = listMax (wpDiffs 10 (x0 :: xs)) ∧
    (runScan x0 xs).wp_max_100 = listMax (wpDiffs 100 (x0 :: xs)) := by
  obtain ⟨x1, rest, rfl⟩ := List.exists_cons_of_ne_nil hne
  have hx0 := hb x0 (by simp)
  have hx1 := hb x1 (by simp)
  have hwf : WF_INIT ≤ x0 - x1 := by
    rw [WF_INIT]
    have hc : (-(2 ^ 63) : ℚ) ≤ -100 := by norm_num
    linarith [hx0.1, hx1.2]
  have hwp : WF_INIT ≤ x1 - x0 := by
    rw [WF_INIT]
    have hc : (-(2 ^ 63) : ℚ) ≤ -100 := by norm_num
    linarith [hx1.1, hx0.2]
  rw [runScan_spec]
  refine ⟨rfl, rfl, ?_, ?_, ?_, ?_⟩
  · exact maxD_init_eq_listMax (x0 - x1)
      (diffsBy_head_mem _ (by norm_num) x0 x1 rest) hwf
  · exact maxD_init_eq_listMax (x0 - x1)
      (diffsBy_head_mem _ (by norm_num) x0 x1 rest) hwf
  · exact maxD_init_eq_listMax (x1 - x0)
      (diffsBy_head_mem _ (by norm_num) x0 x1 rest) hwp
  · exact maxD_init_eq_listMax (x1 - x0)
      (diffsBy_head_mem _ (by norm_num) x0 x1 rest) hwp

/-- C10.  Whatever the input stream, the 10-sample trailing window results
never exceed the 100-sample ones: `WF10 ≤ WF100` and `WP10 ≤ WP100`. -/
theorem c10_trailing10_le_trailing100 (x0 : ℚ) (xs : List ℚ) :
    (runScan x0 xs).wf_max_10 ≤ (runScan x0 xs).wf_max_100 ∧
    (runScan x0 xs).wp_max_10 ≤ (runScan x0 xs).wp_max_100 := by
  rw [runScan_spec]
  constructor
  · exact maxD_mono_subset (le_refl _)
      (fun d hd => diffsBy_mono_W _ (by norm_num) hd)
  · exact maxD_mono_subset (le_refl _)
      (fun d hd => diffsBy_mono_W _ (by norm_num) hd)

/-- Closed instance of `c4_sliding_extremum_scan` on the stream
`50, 60, 40`. -/
theorem c4_sliding_extremum_scan_witness :
    (([60, 40] : List ℚ) ≠ [] ∧ ∀ y ∈ (50 : ℚ) :: [60, 40], 0 ≤ y ∧ y ≤ 100) ∧
    ((runScan 50 [60, 40]).arr10 = lastN 10 ((50 : ℚ) :: [60, 40]) ∧
    (runScan 50 [60, 40]).arr100 = lastN 100 ((50 : ℚ) :: [60, 40]) ∧
    (runScan 50 [60, 40]).wf_max_10 = listMax (wfDiffs 10 ((50 : ℚ) :: [60, 40])) ∧
    (runScan 50 [60, 40]).wf_max_100 = listMax (wfDiffs 100 ((50 : ℚ) :: [60, 40])) ∧
    (runScan 50 [60, 40]).wp_max_10 = listMax (wpDiffs 10 ((50 : ℚ) :: [60, 40])) ∧
    (runScan 50 [60, 40]).wp_max_100 = listMax (wpDiffs 100 ((50 : ℚ) :: [60, 40]))) :=
  ⟨⟨by simp, by norm_num⟩,
    c4_sliding_extremum_scan 50 [60, 40] (by simp) (by norm_num)⟩
